import Mathlib

/-!
Verification of `src/core/numerics/fields/fields.py` (YunMengEnvs).

The Python module defines an abstract `Field` class holding a numpy object
array of `Variable` values (Scalar / Vector / Tensor), with domain-tagged
subclasses `CellField`, `FaceField`, `NodeField`.

The embedding below models the mutable numpy arrays through an explicit
store (heap of arrays addressed by natural numbers), because reference
aliasing between fields is observable in the source (`Field.assign` rebinds
`self._values = other._values` without copying).
-/

set_option maxHeartbeats 1000000

namespace YunMeng

/-- The Python exception classes raised by `fields.py`: `TypeError`,
`ValueError` (also raised by numpy for negative dimensions, empty `min()`,
and `np.vectorize` on size-0 input), and `IndexError`. -/
inductive PyErr where
| typeError
| valueError
| indexError
deriving DecidableEq

/-- Modelled from the spec: the `Variable` value hierarchy
(`core.numerics.fields.variables`, imported by `fields.py` but not present
under `src/`). A physical value of kind Scalar, Vector or Tensor; the spec
leaves the internal numeric layout out of scope, so components are modelled
as integers (every concrete value in the claims is integral). -/
inductive Variable where
| scalar (x : ℤ)
| vector (x y z : ℤ)
| tensor (xx xy xz yx yy yz zx zy zz : ℤ)
deriving DecidableEq

/-- Modelled from the spec: the `type` tag of a `Variable`, a string
comparable for equality ("scalar", "vector", "tensor" as in the
`fields.py` docstrings). -/
def Variable.type : Variable → String
| .scalar _ => "scalar"
| .vector _ _ _ => "vector"
| .tensor _ _ _ _ _ _ _ _ _ => "tensor"

/-- Modelled from the spec: `add(V, V) -> V`, componentwise on matching
kinds. Mismatched kinds never arise under the field compatibility checks;
the left operand is returned there. -/
def Variable.add : Variable → Variable → Variable
| .scalar a, .scalar b => .scalar (a + b)
| .vector a b c, .vector d e f => .vector (a + d) (b + e) (c + f)
| .tensor a b c d e f g h i, .tensor a2 b2 c2 d2 e2 f2 g2 h2 i2 =>
    .tensor (a + a2) (b + b2) (c + c2) (d + d2) (e + e2) (f + f2) (g + g2) (h + h2) (i + i2)
| v, _ => v

/-- Modelled from the spec: `subtract(V, V) -> V`, componentwise on matching
kinds; the left operand is returned on a kind mismatch (unreachable under
the compatibility checks). -/
def Variable.sub : Variable → Variable → Variable
| .scalar a, .scalar b => .scalar (a - b)
| .vector a b c, .vector d e f => .vector (a - d) (b - e) (c - f)
| .tensor a b c d e f g h i, .tensor a2 b2 c2 d2 e2 f2 g2 h2 i2 =>
    .tensor (a - a2) (b - b2) (c - c2) (d - d2) (e - e2) (f - f2) (g - g2) (h - h2) (i - i2)
| v, _ => v

/-- Modelled from the spec: `negate(V) -> V`, componentwise. -/
def Variable.neg : Variable → Variable
| .scalar a => .scalar (-a)
| .vector a b c => .vector (-a) (-b) (-c)
| .tensor a b c d e f g h i =>
    .tensor (-a) (-b) (-c) (-d) (-e) (-f) (-g) (-h) (-i)

/-- Modelled from the spec: absolute value of a `Variable`, componentwise
(the internal layout is out of the spec's scope; only that `np.abs` applies
the value type's absolute-value operation per element matters here). -/
def Variable.abs : Variable → Variable
| .scalar a => .scalar |a|
| .vector a b c => .vector |a| |b| |c|
| .tensor a b c d e f g h i =>
    .tensor |a| |b| |c| |d| |e| |f| |g| |h| |i|

/-- Modelled from the spec: `multiply(V, scalar) -> V`, scaling every
component by the scalar. -/
def Variable.mulScalar : Variable → ℤ → Variable
| .scalar a, c => .scalar (a * c)
| .vector a b c2, c => .vector (a * c) (b * c) (c2 * c)
| .tensor a b c2 d e f g h i, c =>
    .tensor (a * c) (b * c) (c2 * c) (d * c) (e * c) (f * c) (g * c) (h * c) (i * c)

/-- Address of a numpy array in the store. -/
abbrev Addr := Nat

/-- The heap of live numpy object arrays. `Field._values` in the source is
a reference into this store, so aliasing created by `assign` is visible. -/
structure Store where
  arrays : List (List Variable)
deriving DecidableEq

/-- Allocate a fresh array, returning the new store and the new address. -/
def Store.alloc (s : Store) (arr : List Variable) : Store × Addr :=
  (⟨s.arrays ++ [arr]⟩, s.arrays.length)

/-- Dereference an array address (unallocated addresses read as `[]`;
they never occur for fields produced by the modelled constructors). -/
def Store.read (s : Store) (a : Addr) : List Variable :=
  s.arrays.getD a []

/-- Overwrite the array at an address (in-place numpy element writes are
modelled as replacing the whole array at the same address). -/
def Store.write (s : Store) (a : Addr) (arr : List Variable) : Store :=
  ⟨s.arrays.set a arr⟩

/-- The concrete `Field` subclass (`CellField`, `FaceField`, `NodeField`):
pure domain tags with no extra behavior. -/
inductive FieldClass where
| cell
| face
| node
deriving DecidableEq

/-- A Python `Field` object: its class tag, `_num_vars` (a Python int,
possibly negative at a construction attempt), `_default`, and the reference
`_values` into the store. -/
structure Field where
  cls : FieldClass
  num_vars : Int
  default : Variable
  ref : Addr
deriving DecidableEq

/-- `Field.domain`: the fixed string returned by each subclass property. -/
def Field.domain (f : Field) : String :=
  match f.cls with
  | .cell => "cell"
  | .face => "face"
  | .node => "node"

/-- `Field.type`: the type tag of `self._default`. -/
def Field.type (f : Field) : String := f.default.type

/-- `Field.__len__`: returns `self._num_vars`. -/
def Field.len (f : Field) : Int := f.num_vars

/-- `Field.__init__` (via a concrete subclass constructor):
`self._values = np.full(num_vars, default)`. numpy raises `ValueError` for a
negative dimension; `num_vars = 0` yields an empty array (the source has no
size check). -/
def Field.init (cls : FieldClass) (s : Store) (num_vars : Int) (default : Variable) :
    Except PyErr (Store × Field) :=
  if num_vars < 0 then .error .valueError
  else
    let (s', a) := s.alloc (List.replicate num_vars.toNat default)
    .ok (s', ⟨cls, num_vars, default, a⟩)

/-- numpy integer indexing of a 1-d array: indices in `[0, len)` read
directly, indices in `[-len, 0)` wrap from the end, anything else raises
`IndexError`. (The `Variable.scalar 0` junk default of `getD` is never
reached in range.) -/
def npGet (arr : List Variable) (i : Int) : Except PyErr Variable :=
  if 0 ≤ i ∧ i < (arr.length : Int) then .ok (arr.getD i.toNat (Variable.scalar 0))
  else if -(arr.length : Int) ≤ i ∧ i < 0 then
    .ok (arr.getD (arr.length + i).toNat (Variable.scalar 0))
  else .error .indexError

/-- numpy integer write into a 1-d array, same index semantics as `npGet`. -/
def npSet (arr : List Variable) (i : Int) (v : Variable) :
    Except PyErr (List Variable) :=
  if 0 ≤ i ∧ i < (arr.length : Int) then .ok (arr.set i.toNat v)
  else if -(arr.length : Int) ≤ i ∧ i < 0 then
    .ok (arr.set (arr.length + i).toNat v)
  else .error .indexError

/-- `Field.__getitem__`: `return self._values[index]`. -/
def Field.get (s : Store) (f : Field) (i : Int) : Except PyErr Variable :=
  npGet (s.read f.ref) i

/-- `Field.__setitem__`: rejects a value whose `type` differs from
`self._default.type` with `TypeError`, then writes `self._values[index] = value`. -/
def Field.set (s : Store) (f : Field) (i : Int) (v : Variable) :
    Except PyErr Store :=
  if v.type ≠ f.default.type then .error .typeError
  else
    match npSet (s.read f.ref) i v with
    | .error e => .error e
    | .ok arr => .ok (s.write f.ref arr)

/-- Python `min` over a list of ints: raises `ValueError` on an empty
sequence, otherwise returns the least element. -/
def pymin (l : List Int) : Except PyErr Int :=
  match l.min? with
  | none => .error .valueError
  | some m => .ok m

/-- Python `max` over a list of ints: raises `ValueError` on an empty
sequence, otherwise returns the greatest element. -/
def pymax (l : List Int) : Except PyErr Int :=
  match l.max? with
  | none => .error .valueError
  | some m => .ok m

/-- A Python value passed where `fields.py` branches on `isinstance`:
another `Field`, a `Variable`, or any other object (stands for e.g. a plain
float — neither a `Field` nor a `Variable` instance). -/
inductive Operand where
| fld (g : Field)
| var (v : Variable)
| other

/-- `isinstance(other, Scalar)` on an operand: true exactly for a
Scalar-kind `Variable`. -/
def Operand.isScalarVar : Operand → Bool
| .var (.scalar _) => true
| _ => false

/-- A Python object passed as `func`: `some t` is a callable whose return
value is either a `Variable` (`some v`) or any non-`Variable` object
(`none`, covering Python `None` and every other type); `none` at the outer
level models a non-callable argument. -/
abbrev PyFunc := Option (Variable → Option Variable)

/-- `Field.filter`: `np.vectorize(func)` applied to `self._values`, then
`np.where(mask)[0].tolist()`. `np.vectorize` raises `ValueError` on a
size-0 input when no `otypes` is given, so an empty field fails; otherwise
the ascending indices whose value satisfies the predicate are returned.
No write to the store occurs. -/
def Field.filter (s : Store) (f : Field) (func : Variable → Bool) :
    Except PyErr (List Nat) :=
  let arr := s.read f.ref
  if arr.isEmpty then .error .valueError
  else .ok ((List.range arr.length).filter fun i => arr.getD i (Variable.scalar 0) |> func)

/-- The write-back guard shared by `for_each` and `at`: the slot is
overwritten only when `func`'s result is a `Variable` whose `type` equals
the field's `type`; otherwise the slot keeps its old value. -/
def applyOnce (ty : String) (t : Variable → Option Variable) (x : Variable) : Variable :=
  match t x with
  | some r => if r.type = ty then r else x
  | none => x

/-- One iteration of the `Field.for_each` / `Field.at` loop body:
`res = func(self._values[i]); if isinstance(res, Variable) and res.type ==
self.type: self._values[i] = res`. Only invoked with indices already
verified to lie in `[0, len)`, so the `getD` junk default is never read. -/
def stepAt (ty : String) (t : Variable → Option Variable)
    (arr : List Variable) (i : Int) : List Variable :=
  match t (arr.getD i.toNat (Variable.scalar 0)) with
  | some r => if r.type = ty then arr.set i.toNat r else arr
  | none => arr

/-- The sequential loop of `Field.for_each` / `Field.at` over a list of
indices. -/
def atLoop (ty : String) (t : Variable → Option Variable) :
    List Variable → List Int → List Variable
| arr, [] => arr
| arr, i :: rest => atLoop ty t (stepAt ty t arr i) rest

/-- `Field.for_each`: rejects a non-callable `func` with `TypeError`, then
runs the replace-or-skip loop over `range(self._num_vars)`. -/
def Field.for_each (s : Store) (f : Field) (func : PyFunc) : Except PyErr Store :=
  match func with
  | none => .error .typeError
  | some t =>
      .ok (s.write f.ref
        (atLoop f.type t (s.read f.ref) ((List.range f.num_vars.toNat).map Int.ofNat)))

/-- `Field.at` (named `atIdxs` because `at` is a Lean keyword): rejects a
non-callable `func` with `TypeError`; computes `min(indexes)` and
`max(indexes)` (raising `ValueError` on an empty list); raises `IndexError`
when `min < 0 or max >= self._num_vars`; otherwise runs the replace-or-skip
loop over the given indices. The store is returned unchanged on every error
path (all checks precede the first write in the source). -/
def Field.atIdxs (s : Store) (f : Field) (indexes : List Int) (func : PyFunc) :
    Store × Except PyErr Unit :=
  match func with
  | none => (s, .error .typeError)
  | some t =>
      match pymin indexes, pymax indexes with
      | .ok mn, .ok mx =>
          if mn < 0 ∨ f.num_vars ≤ mx then (s, .error .indexError)
          else (s.write f.ref (atLoop f.type t (s.read f.ref) indexes), .ok ())
      | _, _ => (s, .error .valueError)

/-- `Field._check_fields_compatible`, as observed by callers (every raised
`ValueError`/`TypeError` is caught and re-raised as `TypeError`): equal
`_num_vars`, equal `type`, equal `domain`. -/
def fieldsCompatible (f g : Field) : Bool :=
  f.num_vars = g.num_vars ∧ f.type = g.type ∧ f.domain = g.domain

/-- `Field.assign`: for a `Field` source, checks compatibility then rebinds
`self._values = other._values` — the reference is copied, NOT the array, so
the two fields alias the same store address afterwards. For a `Variable`
source, checks the kind then rebinds `self._values` to a fresh
`np.full(self._num_vars, other)` array. Anything else raises `TypeError`. -/
def Field.assign (s : Store) (f : Field) (o : Operand) :
    Except PyErr (Store × Field) :=
  match o with
  | .fld g =>
      if fieldsCompatible f g then .ok (s, { f with ref := g.ref })
      else .error .typeError
  | .var v =>
      if v.type ≠ f.type then .error .typeError
      else
        let (s', a) := s.alloc (List.replicate f.num_vars.toNat v)
        .ok (s', { f with ref := a })
  | .other => .error .typeError

/-- The shared tail of every arithmetic dunder:
`result = self.__class__(self._num_vars, self._default)` followed by
`result._values = <a freshly computed numpy array>`. The constructor
allocates the `np.full` array, then the result's reference is rebound to a
second fresh allocation holding the computed values — so the result never
aliases an operand's storage. -/
def Field.newFrom (s : Store) (f : Field) (arr : List Variable) :
    Except PyErr (Store × Field) :=
  match Field.init f.cls s f.num_vars f.default with
  | .error e => .error e
  | .ok (s1, r) =>
      let (s2, a2) := s1.alloc arr
      .ok (s2, { r with ref := a2 })

/-- `Field.__add__`: for a compatible `Field`, a new field of the same
class whose values are the fresh elementwise-sum array
`self._values + other._values`; for a `Variable` of matching kind,
`np.vectorize(add_constant)` (which raises `ValueError` on a size-0
array); otherwise `TypeError`. -/
def Field.add (s : Store) (f : Field) (o : Operand) :
    Except PyErr (Store × Field) :=
  match o with
  | .fld g =>
      if fieldsCompatible f g then
        Field.newFrom s f (List.zipWith Variable.add (s.read f.ref) (s.read g.ref))
      else .error .typeError
  | .var v =>
      if v.type ≠ f.default.type then .error .typeError
      else if (s.read f.ref).isEmpty then .error .valueError
      else Field.newFrom s f ((s.read f.ref).map (Variable.add · v))
  | .other => .error .typeError

/-- `Field.__sub__`: same structure as `Field.__add__` with elementwise
subtraction. -/
def Field.sub (s : Store) (f : Field) (o : Operand) :
    Except PyErr (Store × Field) :=
  match o with
  | .fld g =>
      if fieldsCompatible f g then
        Field.newFrom s f (List.zipWith Variable.sub (s.read f.ref) (s.read g.ref))
      else .error .typeError
  | .var v =>
      if v.type ≠ f.default.type then .error .typeError
      else if (s.read f.ref).isEmpty then .error .valueError
      else Field.newFrom s f ((s.read f.ref).map (Variable.sub · v))
  | .other => .error .typeError

/-- `Field.__mul__`: raises `TypeError` unless the operand is a `Scalar`
instance; otherwise a new field of the same class whose values are the
fresh broadcast product `self._values * other`. -/
def Field.mul (s : Store) (f : Field) (o : Operand) :
    Except PyErr (Store × Field) :=
  match o with
  | .var (.scalar c) => Field.newFrom s f ((s.read f.ref).map (Variable.mulScalar · c))
  | _ => .error .typeError

/-- `Field.__neg__`: a new field of the same class whose values are the
fresh elementwise negation `-self._values`. -/
def Field.negF (s : Store) (f : Field) : Except PyErr (Store × Field) :=
  Field.newFrom s f ((s.read f.ref).map Variable.neg)

/-- `Field.__abs__`: a new field of the same class whose values are the
fresh elementwise `np.abs(self._values)`. -/
def Field.absF (s : Store) (f : Field) : Except PyErr (Store × Field) :=
  Field.newFrom s f ((s.read f.ref).map Variable.abs)

/-- Well-formedness of a field against a store: its array reference is
allocated, the array length agrees with `_num_vars`, and `_num_vars` is
nonnegative — true of every field produced by a successful constructor. -/
def WF (s : Store) (f : Field) : Prop :=
  f.ref < s.arrays.length ∧ (s.read f.ref).length = f.num_vars.toNat ∧ 0 ≤ f.num_vars

instance (s : Store) (f : Field) : Decidable (WF s f) := by
  unfold WF; infer_instance

/-- Kind homogeneity of a field's stored values: every value in its array
has the kind of `_default`. -/
def Homog (s : Store) (f : Field) : Prop :=
  ∀ v ∈ s.read f.ref, v.type = f.default.type

instance (s : Store) (f : Field) : Decidable (Homog s f) := by
  unfold Homog; infer_instance

/-- A mutating call on a field, as enumerated by the spec's kind-homogeneity
invariant: `set`, `for_each`, `at`, `assign`. -/
inductive FieldOp where
| setOp (i : Int) (v : Variable)
| forEachOp (func : PyFunc)
| atOp (indexes : List Int) (func : PyFunc)
| assignOp (o : Operand)

/-- Run one mutating call on a field, returning the updated store and the
(possibly rebound) field object. -/
def stepOp (s : Store) (f : Field) : FieldOp → Except PyErr (Store × Field)
| .setOp i v =>
    match Field.set s f i v with
    | .error e => .error e
    | .ok s' => .ok (s', f)
| .forEachOp func =>
    match Field.for_each s f func with
    | .error e => .error e
    | .ok s' => .ok (s', f)
| .atOp indexes func =>
    match Field.atIdxs s f indexes func with
    | (s', .ok _) => .ok (s', f)
    | (_, .error e) => .error e
| .assignOp o => Field.assign s f o

/-- A sequence of successful mutating calls on one field, starting from a
given store/field state. An `assign` step from another field additionally
records that the source field was kind-homogeneous at that point (the
invariant holds for every live field, so this is the standing assumption of
the spec's invariant statement). -/
inductive Runs : Store → Field → Store → Field → Prop where
| refl (s : Store) (f : Field) : Runs s f s f
| step {s f s' f' s'' f''} {op : FieldOp}
    (hrun : Runs s f s' f')
    (hsrc : ∀ g, op = .assignOp (.fld g) → Homog s' g)
    (hok : stepOp s' f' op = .ok (s'', f'')) : Runs s f s'' f''

/-- What the spec demands of an arithmetic result: the call succeeds and
returns a newly constructed field of the same concrete variant (same class,
hence same domain tag), same `count` and same `default` as the left
operand, holding exactly the given value array at a storage address
distinct from both operands' addresses, while both operands' stored values
are unchanged. -/
def FreshResult (s : Store) (a b : Field) (res : Except PyErr (Store × Field))
    (arr : List Variable) : Prop :=
  ∃ s' r, res = .ok (s', r) ∧ r.cls = a.cls ∧ r.num_vars = a.num_vars ∧
    r.default = a.default ∧ s'.read r.ref = arr ∧
    s'.read a.ref = s.read a.ref ∧ s'.read b.ref = s.read b.ref ∧
    r.ref ≠ a.ref ∧ r.ref ≠ b.ref

/-- A concrete transform used to exercise the bulk-mutation operations:
adds 1 to a Scalar, returns a non-`Variable` (Python `None`) otherwise. -/
def incScalar : Variable → Option Variable :=
  fun v =>
    match v with
    | .scalar x => some (.scalar (x + 1))
    | _ => none

/-- The predicate "value > 2" on Scalars, from the spec's `filter` example. -/
def scalarGtTwo : Variable → Bool :=
  fun v =>
    match v with
    | .scalar x => 2 < x
    | _ => false

/-- The constantly-true predicate, for exercising `filter`. -/
def alwaysTrue : Variable → Bool := fun _ => true

/-! ### Helper lemmas about the store and the loops -/

theorem read_alloc_of_lt (s : Store) (arr : List Variable) {a : Addr}
    (h : a < s.arrays.length) : (s.alloc arr).1.read a = s.read a := by
  simp [Store.alloc, Store.read, List.getD_eq_getElem?_getD, List.getElem?_append, h]

theorem read_alloc_self (s : Store) (arr : List Variable) :
    (s.alloc arr).1.read (s.alloc arr).2 = arr := by
  simp [Store.alloc, Store.read, List.getD_eq_getElem?_getD, List.getElem?_append_right]

theorem arrays_alloc_length (s : Store) (arr : List Variable) :
    (s.alloc arr).1.arrays.length = s.arrays.length + 1 := by
  simp [Store.alloc]

theorem read_write_self (s : Store) (a : Addr) (arr : List Variable)
    (h : a < s.arrays.length) : (s.write a arr).read a = arr := by
  simp [Store.write, Store.read, List.getD_eq_getElem?_getD, List.getElem?_set_self, h]

theorem read_write_self_cases (s : Store) (a : Addr) (arr : List Variable) :
    (s.write a arr).read a = arr ∨ (s.write a arr).read a = s.read a := by
  by_cases h : a < s.arrays.length
  · exact Or.inl (read_write_self s a arr h)
  · right
    simp [Store.write, Store.read, List.set_eq_of_length_le (le_of_not_lt h)]

theorem stepAt_length (ty : String) (t : Variable → Option Variable)
    (arr : List Variable) (i : Int) : (stepAt ty t arr i).length = arr.length := by
  unfold stepAt
  cases t (arr.getD i.toNat (Variable.scalar 0)) with
  | none => rfl
  | some r =>
      by_cases h : r.type = ty <;> simp [h]

theorem atLoop_length (ty : String) (t : Variable → Option Variable)
    (idxs : List Int) : ∀ arr, (atLoop ty t arr idxs).length = arr.length := by
  induction idxs with
  | nil => intro arr; rfl
  | cons i rest ih =>
      intro arr
      rw [atLoop, ih, stepAt_length]

theorem stepAt_homog {ty : String} {t : Variable → Option Variable}
    {arr : List Variable} {i : Int} (h : ∀ w ∈ arr, w.type = ty) :
    ∀ v ∈ stepAt ty t arr i, v.type = ty := by
  intro v hv
  unfold stepAt at hv
  split at hv
  · split at hv
    · rcases List.mem_or_eq_of_mem_set hv with h1 | h1
      · exact h v h1
      · next hty => exact h1 ▸ hty
    · exact h v hv
  · exact h v hv

theorem atLoop_homog {ty : String} {t : Variable → Option Variable}
    {idxs : List Int} :
    ∀ arr, (∀ w ∈ arr, w.type = ty) → ∀ v ∈ atLoop ty t arr idxs, v.type = ty := by
  induction idxs with
  | nil => intro arr h v hv; exact h v hv
  | cons i rest ih =>
      intro arr h v hv
      rw [atLoop] at hv
      exact ih _ (stepAt_homog h) v hv

theorem stepAt_getElem? {ty : String} {t : Variable → Option Variable}
    {arr : List Variable} {i : Int} (h0 : 0 ≤ i) (hlt : i < (arr.length : Int))
    (j : Nat) :
    (stepAt ty t arr i)[j]? =
      if i.toNat = j then (arr[j]?).map (applyOnce ty t) else arr[j]? := by
  have hj : i.toNat < arr.length := by omega
  have hget : arr.getD i.toNat (Variable.scalar 0) = arr[i.toNat] :=
    List.getD_eq_getElem arr (Variable.scalar 0) hj
  have hsome : arr[i.toNat]? = some arr[i.toNat] := List.getElem?_eq_getElem hj
  unfold stepAt
  split
  · next r hr =>
      rw [hget] at hr
      split
      · next hty =>
          by_cases hij : i.toNat = j
          · subst hij
            rw [if_pos rfl, hsome]
            simp [applyOnce, hr, hty, List.getElem?_set_self, hj]
          · rw [if_neg hij]
            exact List.getElem?_set_ne hij
      · next hty =>
          by_cases hij : i.toNat = j
          · subst hij
            rw [if_pos rfl, hsome]
            simp [applyOnce, hr, hty]
          · rw [if_neg hij]
  · next hr =>
      rw [hget] at hr
      by_cases hij : i.toNat = j
      · subst hij
        rw [if_pos rfl, hsome]
        simp [applyOnce, hr]
      · rw [if_neg hij]

theorem atLoop_getElem? {ty : String} {t : Variable → Option Variable}
    {idxs : List Int} (hnd : idxs.Nodup) :
    ∀ arr, (∀ i ∈ idxs, 0 ≤ i ∧ i < (arr.length : Int)) → ∀ j : Nat,
    (atLoop ty t arr idxs)[j]? =
      if (j : Int) ∈ idxs then (arr[j]?).map (applyOnce ty t) else arr[j]? := by
  induction idxs with
  | nil => intro arr _ j; simp [atLoop]
  | cons i rest ih =>
      intro arr hin j
      obtain ⟨hi0, hilt⟩ := hin i (List.mem_cons_self i rest)
      have hnc := List.nodup_cons.mp hnd
      have hin' : ∀ k ∈ rest, 0 ≤ k ∧ k < ((stepAt ty t arr i).length : Int) := by
        rw [stepAt_length]
        intro k hk
        exact hin k (List.mem_cons_of_mem i hk)
      rw [atLoop, ih hnc.2 _ hin' j]
      by_cases hjr : (j : Int) ∈ rest
      · have hij : i.toNat ≠ j := by
          intro hc
          have : (j : Int) = i := by omega
          exact hnc.1 (this ▸ hjr)
        rw [if_pos hjr, stepAt_getElem? hi0 hilt j, if_neg hij,
          if_pos (List.mem_cons_of_mem i hjr)]
      · by_cases hji : (j : Int) = i
        · have hij : i.toNat = j := by omega
          rw [if_neg hjr, stepAt_getElem? hi0 hilt j, if_pos hij,
            if_pos (hji ▸ List.mem_cons_self i rest)]
        · have hij : i.toNat ≠ j := by omega
          have : (j : Int) ∉ i :: rest := by
            intro hc
            rcases List.mem_cons.mp hc with h1 | h1
            · exact hji h1
            · exact hjr h1
          rw [if_neg hjr, stepAt_getElem? hi0 hilt j, if_neg hij, if_neg this]

theorem pymin_le {l : List Int} {m i : Int} (h : pymin l = .ok m) (hi : i ∈ l) :
    m ≤ i := by
  unfold pymin at h
  cases hm : l.min? with
  | none => rw [hm] at h; exact absurd h (by simp)
  | some a =>
      rw [hm] at h
      have ham : a = m := by
        simpa using h
      exact ham ▸ (List.le_min?_iff (fun _ _ _ => le_min_iff) hm).mp le_rfl i hi

theorem le_pymax {l : List Int} {m i : Int} (h : pymax l = .ok m) (hi : i ∈ l) :
    i ≤ m := by
  unfold pymax at h
  cases hm : l.max? with
  | none => rw [hm] at h; exact absurd h (by simp)
  | some a =>
      rw [hm] at h
      have ham : a = m := by
        simpa using h
      exact ham ▸ (List.max?_le_iff (fun _ _ _ => max_le_iff) hm).mp le_rfl i hi

theorem pymin_ok_mem {l : List Int} (h : l ≠ []) :
    ∃ m, pymin l = .ok m ∧ m ∈ l := by
  cases hm : l.min? with
  | none => exact absurd (List.min?_eq_none_iff.mp hm) h
  | some a =>
      exact ⟨a, by simp [pymin, hm], List.min?_mem (fun _ _ => min_choice _ _) hm⟩

theorem pymax_ok_mem {l : List Int} (h : l ≠ []) :
    ∃ m, pymax l = .ok m ∧ m ∈ l := by
  cases hm : l.max? with
  | none =>
      have : l = [] := by
        cases l with
        | nil => rfl
        | cons x xs => simp [List.max?_cons'] at hm
      exact absurd this h
  | some a =>
      exact ⟨a, by simp [pymax, hm], List.max?_mem (fun _ _ => max_choice _ _) hm⟩

theorem newFrom_spec (s : Store) (f : Field) (arr : List Variable)
    (h0 : 0 ≤ f.num_vars) :
    ∃ s' r, Field.newFrom s f arr = .ok (s', r) ∧
      r.cls = f.cls ∧ r.num_vars = f.num_vars ∧ r.default = f.default ∧
      r.ref = s.arrays.length + 1 ∧
      s'.read r.ref = arr ∧
      ∀ a : Addr, a < s.arrays.length → s'.read a = s.read a := by
  have hlen1 : (s.alloc (List.replicate f.num_vars.toNat f.default)).1.arrays.length
      = s.arrays.length + 1 := arrays_alloc_length s _
  refine ⟨((s.alloc (List.replicate f.num_vars.toNat f.default)).1.alloc arr).1,
    ⟨f.cls, f.num_vars, f.default,
      (s.alloc (List.replicate f.num_vars.toNat f.default)).1.arrays.length⟩,
    ?_, rfl, rfl, rfl, hlen1, read_alloc_self _ arr, ?_⟩
  · unfold Field.newFrom Field.init
    rw [if_neg (not_lt.mpr h0)]
    rfl
  · intro a ha
    have h2 : a < (s.alloc (List.replicate f.num_vars.toNat f.default)).1.arrays.length := by
      rw [hlen1]
      exact Nat.lt_succ_of_lt ha
    show ((s.alloc _).1.alloc arr).1.read a = s.read a
    rw [read_alloc_of_lt _ arr h2]
    exact read_alloc_of_lt _ _ ha

/-! ### Claim theorems -/

/-- Claim C1 (code bug): the spec requires `assign` to copy, but the source
aliases: after `c.assign(a)` (which executes `self._values = other._values`)
the two fields share one array, so `a.set(0, Scalar 9)` changes `c.get(0)`
from the `Scalar 2` that `a` held at assignment time to `Scalar 9`. The
chain below evaluates the embedded code on that failing input. -/
theorem C1_assign_aliases_storage :
    Field.init .cell ⟨[]⟩ 1 (.scalar 1)
      = .ok (⟨[[.scalar 1]]⟩, ⟨.cell, 1, .scalar 1, 0⟩) ∧
    Field.init .cell ⟨[[.scalar 1]]⟩ 1 (.scalar 2)
      = .ok (⟨[[.scalar 1], [.scalar 2]]⟩, ⟨.cell, 1, .scalar 2, 1⟩) ∧
    Field.assign ⟨[[.scalar 1], [.scalar 2]]⟩ ⟨.cell, 1, .scalar 1, 0⟩
        (.fld ⟨.cell, 1, .scalar 2, 1⟩)
      = .ok (⟨[[.scalar 1], [.scalar 2]]⟩, ⟨.cell, 1, .scalar 1, 1⟩) ∧
    Field.get ⟨[[.scalar 1], [.scalar 2]]⟩ ⟨.cell, 1, .scalar 1, 1⟩ 0
      = .ok (.scalar 2) ∧
    Field.set ⟨[[.scalar 1], [.scalar 2]]⟩ ⟨.cell, 1, .scalar 2, 1⟩ 0 (.scalar 9)
      = .ok ⟨[[.scalar 1], [.scalar 9]]⟩ ∧
    Field.get ⟨[[.scalar 1], [.scalar 9]]⟩ ⟨.cell, 1, .scalar 1, 1⟩ 0
      = .ok (.scalar 9) ∧
    Variable.scalar 9 ≠ Variable.scalar 2 :=
  ⟨rfl, rfl, rfl, rfl, rfl, rfl, by decide⟩

/-- Claim C2, counterexample: constructing a field with `count = 0` does
not fail with `InvalidSize` — it succeeds (the source performs no size
check and `np.full(0, d)` is legal), refuting "for every count ≤ 0 …
construction fails". -/
theorem C2_zero_count_succeeds :
    Field.init .cell ⟨[]⟩ 0 (.scalar 0)
      = .ok (⟨[[]]⟩, ⟨.cell, 0, .scalar 0, 0⟩) := rfl

/-- Claim C2, amended: construction with a negative count fails (numpy
`ValueError`, not a dedicated `InvalidSize`); count = 0 succeeds with
`len == 0` and an empty value array; count > 0 succeeds with `len == count`
and `get(i) == default` for every `i ∈ [0, count)`. -/
theorem C2_construction_amended :
    (∀ (cls : FieldClass) (s : Store) (d : Variable) (n : Int), n < 0 →
      Field.init cls s n d = .error .valueError) ∧
    (∀ (cls : FieldClass) (s : Store) (d : Variable),
      ∃ s' f, Field.init cls s 0 d = .ok (s', f) ∧ Field.len f = 0 ∧
        s'.read f.ref = []) ∧
    (∀ (cls : FieldClass) (s : Store) (d : Variable) (n : Int), 0 < n →
      ∃ s' f, Field.init cls s n d = .ok (s', f) ∧ Field.len f = n ∧
        ∀ i : Int, 0 ≤ i → i < n → Field.get s' f i = .ok d) := by
  refine ⟨?_, ?_, ?_⟩
  · intro cls s d n hn
    unfold Field.init
    rw [if_pos hn]
  · intro cls s d
    refine ⟨(s.alloc (List.replicate (0 : Int).toNat d)).1,
      ⟨cls, 0, d, s.arrays.length⟩, ?_, rfl, ?_⟩
    · unfold Field.init
      rw [if_neg (by omega)]
      rfl
    · show (s.alloc _).1.read s.arrays.length = _
      exact read_alloc_self s _
  · intro cls s d n hn
    refine ⟨(s.alloc (List.replicate n.toNat d)).1,
      ⟨cls, n, d, s.arrays.length⟩, ?_, rfl, ?_⟩
    · unfold Field.init
      rw [if_neg (by omega)]
      rfl
    · intro i h0 hlt
      have harr : (s.alloc (List.replicate n.toNat d)).1.read s.arrays.length
          = List.replicate n.toNat d := read_alloc_self s _
      show npGet ((s.alloc _).1.read s.arrays.length) i = .ok d
      rw [harr]
      have hlen : ((List.replicate n.toNat d).length : Int) = n := by
        simp [List.length_replicate]; omega
      unfold npGet
      rw [if_pos (by constructor <;> omega)]
      have hj : i.toNat < (List.replicate n.toNat d).length := by
        simp [List.length_replicate]; omega
      rw [List.getD_eq_getElem _ _ hj, List.getElem_replicate]

/-- Claim C2 amended, witness: a negative count fails and count 2 builds a
field of two default slots. -/
theorem C2_construction_amended_witness :
    Field.init .cell ⟨[]⟩ (-3) (.scalar 0) = .error .valueError ∧
    (∃ s' f, Field.init .cell ⟨[]⟩ 2 (.scalar 5) = .ok (s', f) ∧
      Field.len f = 2 ∧
      ∀ i : Int, 0 ≤ i → i < 2 → Field.get s' f i = .ok (.scalar 5)) :=
  ⟨C2_construction_amended.1 .cell ⟨[]⟩ (.scalar 0) (-3) (by decide),
   C2_construction_amended.2.2 .cell ⟨[]⟩ (.scalar 5) 2 (by decide)⟩

/-- Claim C3, counterexample: `get(-1)` on a 1-element field does not fail
with `IndexOutOfRange` — numpy wraps negative indices, so it returns the
last stored value, refuting "get fails iff index outside [0, count); in
particular get(-1) … fails". -/
theorem C3_get_neg_one_succeeds :
    Field.get ⟨[[.scalar 7]]⟩ ⟨.cell, 1, .scalar 7, 0⟩ (-1)
      = .ok (.scalar 7) := rfl

/-- Claim C3, amended: for a well-formed field, `get(index)` fails with
`IndexError` iff `index ∉ [-count, count)`; `get(count)` still fails, but
an index in `[-count, 0)` wraps, returning the value at `count + index`;
an index in `[0, count)` returns the stored value. -/
theorem C3_get_amended (s : Store) (f : Field) (hwf : WF s f) (i : Int) :
    ((∃ v, Field.get s f i = .ok v) ↔ (-f.num_vars ≤ i ∧ i < f.num_vars)) ∧
    (i < -f.num_vars ∨ f.num_vars ≤ i →
      Field.get s f i = .error .indexError) ∧
    (∀ v, 0 ≤ i → (s.read f.ref)[i.toNat]? = some v →
      Field.get s f i = .ok v) ∧
    (∀ v, -f.num_vars ≤ i → i < 0 →
      (s.read f.ref)[(f.num_vars + i).toNat]? = some v →
      Field.get s f i = .ok v) := by
  obtain ⟨-, hlen, h0⟩ := hwf
  have hlen' : ((s.read f.ref).length : Int) = f.num_vars := by omega
  refine ⟨⟨?_, ?_⟩, ?_, ?_, ?_⟩
  · rintro ⟨v, hv⟩
    unfold Field.get npGet at hv
    by_cases h1 : 0 ≤ i ∧ i < ((s.read f.ref).length : Int)
    · omega
    · rw [if_neg h1] at hv
      by_cases h2 : -((s.read f.ref).length : Int) ≤ i ∧ i < 0
      · omega
      · rw [if_neg h2] at hv
        exact absurd hv (by simp)
  · intro hr
    unfold Field.get npGet
    by_cases hpos : 0 ≤ i
    · rw [if_pos (by omega)]
      exact ⟨_, rfl⟩
    · rw [if_neg (by omega), if_pos (by omega)]
      exact ⟨_, rfl⟩
  · intro hr
    unfold Field.get npGet
    rw [if_neg (by omega), if_neg (by omega)]
  · intro v hi hv
    have hj : i.toNat < (s.read f.ref).length :=
      List.getElem?_eq_some_iff.mp hv |>.1
    unfold Field.get npGet
    rw [if_pos (by omega), List.getD_eq_getElem _ _ hj]
    rw [List.getElem?_eq_getElem hj] at hv
    exact congrArg Except.ok (Option.some.inj hv)
  · intro v hi hneg hv
    have hj : (f.num_vars + i).toNat < (s.read f.ref).length :=
      List.getElem?_eq_some_iff.mp hv |>.1
    unfold Field.get npGet
    rw [if_neg (by omega), if_pos (by omega)]
    have harg : (((s.read f.ref).length : Int) + i).toNat = (f.num_vars + i).toNat := by
      omega
    rw [harg, List.getD_eq_getElem _ _ hj]
    rw [List.getElem?_eq_getElem hj] at hv
    exact congrArg Except.ok (Option.some.inj hv)

/-- Claim C3 amended, witness: on a 2-element field, `get(5)` fails,
`get(1)` returns the second value, `get(-2)` wraps to the first. -/
theorem C3_get_amended_witness :
    Field.get ⟨[[.scalar 7, .scalar 8]]⟩ ⟨.cell, 2, .scalar 0, 0⟩ 5
      = .error .indexError ∧
    Field.get ⟨[[.scalar 7, .scalar 8]]⟩ ⟨.cell, 2, .scalar 0, 0⟩ 1
      = .ok (.scalar 8) ∧
    Field.get ⟨[[.scalar 7, .scalar 8]]⟩ ⟨.cell, 2, .scalar 0, 0⟩ (-2)
      = .ok (.scalar 7) :=
  ⟨(C3_get_amended _ _ (by decide) 5).2.1 (by decide),
   (C3_get_amended _ _ (by decide) 1).2.2.1 (.scalar 8) (by decide) rfl,
   (C3_get_amended _ _ (by decide) (-2)).2.2.2 (.scalar 7) (by decide)
     (by decide) rfl⟩

/-- Claim C10: calling `at` with an empty index collection and a callable
transform raises an error (Python `min()` of an empty sequence raises
`ValueError`) rather than succeeding as a no-op; the store is untouched. -/
theorem C10_at_empty_raises (s : Store) (f : Field)
    (t : Variable → Option Variable) :
    Field.atIdxs s f [] (some t) = (s, .error .valueError) := rfl

/-- Claim C4: multiplying a scalar field holding [1, 2, 3] by the scalar 2
yields a field holding [2, 4, 6]; and for every field, `__mul__` with any
operand that is not a `Scalar` instance (another field, a vector/tensor
value, or any other object) fails with `TypeError`. -/
theorem C4_mul_scalar :
    ((Field.mul ⟨[[.scalar 1, .scalar 2, .scalar 3]]⟩ ⟨.cell, 3, .scalar 0, 0⟩
        (.var (.scalar 2))).toOption.map (fun p => p.1.read p.2.ref)
      = some [.scalar 2, .scalar 4, .scalar 6]) ∧
    (∀ (s : Store) (f : Field) (o : Operand), o.isScalarVar = false →
      Field.mul s f o = .error .typeError) := by
  refine ⟨rfl, ?_⟩
  intro s f o h
  match o with
  | .fld g => rfl
  | .other => rfl
  | .var (.scalar c) => exact absurd h (by simp [Operand.isScalarVar])
  | .var (.vector x y z) => rfl
  | .var (.tensor a b c d e g h2 i j) => rfl

/-- Claim C4, witness: a field-of-scalars operand and a vector operand are
both rejected with `TypeError`. -/
theorem C4_mul_scalar_witness :
    Field.mul ⟨[[.scalar 1]]⟩ ⟨.cell, 1, .scalar 0, 0⟩
      (.fld ⟨.cell, 1, .scalar 0, 0⟩) = .error .typeError ∧
    Field.mul ⟨[[.scalar 1]]⟩ ⟨.cell, 1, .scalar 0, 0⟩
      (.var (.vector 1 2 3)) = .error .typeError :=
  ⟨C4_mul_scalar.2 _ _ _ rfl, C4_mul_scalar.2 _ _ _ rfl⟩

/-- Claim C5: for every field and every non-empty index collection holding
at least one index outside [0, count), `at` fails with `IndexError` before
applying the transform anywhere: the returned store is exactly the input
store, so every slot is unchanged (all-or-nothing). -/
theorem C5_at_out_of_range_all_or_nothing (s : Store) (f : Field)
    (idxs : List Int) (t : Variable → Option Variable)
    (hne : idxs ≠ [])
    (hout : ∃ i ∈ idxs, i < 0 ∨ f.num_vars ≤ i) :
    Field.atIdxs s f idxs (some t) = (s, .error .indexError) := by
  obtain ⟨mn, hmn, hmnmem⟩ := pymin_ok_mem hne
  obtain ⟨mx, hmx, hmxmem⟩ := pymax_ok_mem hne
  obtain ⟨i, hi, hcase⟩ := hout
  unfold Field.atIdxs
  simp only [hmn, hmx]
  have hb : mn < 0 ∨ f.num_vars ≤ mx := by
    rcases hcase with hneg | hge
    · exact Or.inl (lt_of_le_of_lt (pymin_le hmn hi) hneg)
    · exact Or.inr (le_trans hge (le_pymax hmx hi))
  rw [if_pos hb]

/-- Claim C5, witness: index 5 on a 1-element field fails with `IndexError`
and returns the untouched store. -/
theorem C5_at_out_of_range_witness :
    Field.atIdxs ⟨[[.scalar 10]]⟩ ⟨.cell, 1, .scalar 0, 0⟩ [5] (some incScalar)
      = (⟨[[.scalar 10]]⟩, .error .indexError) :=
  C5_at_out_of_range_all_or_nothing _ _ _ _ (by decide)
    ⟨5, by decide, Or.inr (by decide)⟩

/-- Claim C7, counterexample: on an empty field (constructible per C2),
`filter` raises `ValueError` (`np.vectorize` rejects size-0 input without
`otypes`) instead of returning the empty index list, refuting "for every
field … filter returns exactly the indices …". -/
theorem C7_filter_empty_errors :
    Field.filter ⟨[[]]⟩ ⟨.cell, 0, .scalar 0, 0⟩ alwaysTrue
      = .error .valueError ∧
    Field.filter ⟨[[]]⟩ ⟨.cell, 0, .scalar 0, 0⟩ alwaysTrue
      ≠ .ok ([] : List Nat) :=
  ⟨rfl, fun h => Except.noConfusion (rfl.trans h)⟩

/-- Claim C7, amended: for every field holding at least one value and every
predicate, `filter` succeeds and returns exactly the indices whose stored
value satisfies the predicate, in strictly ascending order, without writing
to the store; on the spec's example ([1,2,3,4,5] with "value > 2") it
returns [2, 3, 4]. -/
theorem C7_filter_amended :
    (∀ (s : Store) (f : Field) (p : Variable → Bool), s.read f.ref ≠ [] →
      ∃ l, Field.filter s f p = .ok l ∧ l.Sorted (· < ·) ∧
        ∀ j : Nat, j ∈ l ↔ ∃ v, (s.read f.ref)[j]? = some v ∧ p v = true) ∧
    Field.filter ⟨[[.scalar 1, .scalar 2, .scalar 3, .scalar 4, .scalar 5]]⟩
      ⟨.cell, 5, .scalar 0, 0⟩ scalarGtTwo = .ok [2, 3, 4] := by
  refine ⟨?_, rfl⟩
  intro s f p hne
  refine ⟨(List.range (s.read f.ref).length).filter
      (fun i => p ((s.read f.ref).getD i (Variable.scalar 0))), ?_, ?_, ?_⟩
  · unfold Field.filter
    rw [if_neg (by simpa [List.isEmpty_iff] using hne)]
  · exact List.Pairwise.filter _ (List.pairwise_lt_range _)
  · intro j
    constructor
    · intro hj
      have hj' := List.mem_filter.mp hj
      have hjlen : j < (s.read f.ref).length := List.mem_range.mp hj'.1
      refine ⟨(s.read f.ref).getD j (Variable.scalar 0), ?_, hj'.2⟩
      rw [List.getD_eq_getElem _ _ hjlen]
      exact List.getElem?_eq_getElem hjlen
    · rintro ⟨v, hv, hpv⟩
      have hjlen : j < (s.read f.ref).length := (List.getElem?_eq_some_iff.mp hv).1
      refine List.mem_filter.mpr ⟨List.mem_range.mpr hjlen, ?_⟩
      have : (s.read f.ref).getD j (Variable.scalar 0) = v := by
        rw [List.getD_eq_getElem _ _ hjlen]
        exact Option.some.inj ((List.getElem?_eq_getElem hjlen).symm.trans hv)
      rw [this]
      exact hpv

/-- Claim C7 amended, witness: on a 2-element field the satisfying index
set is computed and characterized. -/
theorem C7_filter_amended_witness :
    ∃ l, Field.filter ⟨[[.scalar 1, .scalar 3]]⟩ ⟨.cell, 2, .scalar 0, 0⟩
        scalarGtTwo = .ok l ∧ l.Sorted (· < ·) ∧
      ∀ j : Nat, j ∈ l ↔
        ∃ v, ((Store.mk [[.scalar 1, .scalar 3]]).read 0)[j]? = some v ∧
          scalarGtTwo v = true :=
  C7_filter_amended.1 ⟨[[.scalar 1, .scalar 3]]⟩ ⟨.cell, 2, .scalar 0, 0⟩
    scalarGtTwo (by decide)

/-- Claim C9, counterexample: `at` takes a Python *list* (`indexes:
List[int]`), not a set, and its loop `for i in indexes` visits every
occurrence: on a 1-element field holding Scalar 10, `at([0, 0], +1)`
applies the transform twice (10 → 11 → 12), not once (which would give 11),
refuting "applies the transform to each supplied index exactly once
(including when the supplied collection contains a repeated index)". -/
theorem C9_duplicate_index_applied_twice :
    Field.atIdxs ⟨[[.scalar 10]]⟩ ⟨.cell, 1, .scalar 0, 0⟩ [0, 0]
        (some incScalar) = (⟨[[.scalar 12]]⟩, .ok ()) ∧
    incScalar (.scalar 10) = some (.scalar 11) ∧
    (⟨[[.scalar 12]]⟩ : Store) ≠ ⟨[[.scalar 11]]⟩ :=
  ⟨rfl, rfl, by decide⟩

/-- Claim C9, amended: `at` applies the transform once per occurrence of
each index in the supplied list; in particular, for a duplicate-free
in-range index list each supplied index is transformed exactly once (slot
`j` holds the once-transformed value iff `j` is listed, and is untouched
otherwise), while a repeated index is transformed once per occurrence. -/
theorem C9_at_each_listed_index_once (s : Store) (f : Field)
    (idxs : List Int) (t : Variable → Option Variable)
    (hwf : WF s f) (hne : idxs ≠ []) (hnd : idxs.Nodup)
    (hin : ∀ i ∈ idxs, 0 ≤ i ∧ i < f.num_vars) :
    ∃ s', Field.atIdxs s f idxs (some t) = (s', .ok ()) ∧
      ∀ j : Nat, (s'.read f.ref)[j]? =
        if (j : Int) ∈ idxs then ((s.read f.ref)[j]?).map (applyOnce f.type t)
        else (s.read f.ref)[j]? := by
  obtain ⟨href, hlen, h0⟩ := hwf
  obtain ⟨mn, hmn, hmnmem⟩ := pymin_ok_mem hne
  obtain ⟨mx, hmx, hmxmem⟩ := pymax_ok_mem hne
  have hb : ¬(mn < 0 ∨ f.num_vars ≤ mx) := by
    push_neg
    exact ⟨(hin mn hmnmem).1, (hin mx hmxmem).2⟩
  refine ⟨s.write f.ref (atLoop f.type t (s.read f.ref) idxs), ?_, ?_⟩
  · unfold Field.atIdxs
    simp only [hmn, hmx]
    rw [if_neg hb]
  · intro j
    rw [read_write_self s f.ref _ href]
    have hin' : ∀ i ∈ idxs, 0 ≤ i ∧ i < ((s.read f.ref).length : Int) := by
      intro i hi
      obtain ⟨hi0, hilt⟩ := hin i hi
      exact ⟨hi0, by omega⟩
    exact atLoop_getElem? hnd (s.read f.ref) hin' j

/-- Claim C9 amended, witness: on [1, 2, 3] with indices [0, 2] and the
Scalar +1 transform, slots 0 and 2 are transformed exactly once and slot 1
is untouched. -/
theorem C9_at_each_listed_index_once_witness :
    ∃ s', Field.atIdxs ⟨[[.scalar 1, .scalar 2, .scalar 3]]⟩
        ⟨.cell, 3, .scalar 0, 0⟩ [0, 2] (some incScalar) = (s', .ok ()) ∧
      ∀ j : Nat, (s'.read 0)[j]? =
        if (j : Int) ∈ [(0 : Int), 2] then
          (((Store.mk [[.scalar 1, .scalar 2, .scalar 3]]).read 0)[j]?).map
            (applyOnce "scalar" incScalar)
        else ((Store.mk [[.scalar 1, .scalar 2, .scalar 3]]).read 0)[j]? :=
  C9_at_each_listed_index_once ⟨[[.scalar 1, .scalar 2, .scalar 3]]⟩
    ⟨.cell, 3, .scalar 0, 0⟩ [0, 2] incScalar (by decide) (by decide)
    (by decide) (by decide)

theorem newFrom_frame (s : Store) (a b : Field) (arr : List Variable)
    (hwa : WF s a) (hwb : WF s b) :
    FreshResult s a b (Field.newFrom s a arr) arr := by
  obtain ⟨s', r, heq, hcls, hnum, hdef, hrlen, hread, hpres⟩ :=
    newFrom_spec s a arr hwa.2.2
  refine ⟨s', r, heq, hcls, hnum, hdef, hread,
    hpres a.ref hwa.1, hpres b.ref hwb.1, ?_, ?_⟩
  · rw [hrlen]
    exact ne_of_gt (Nat.lt_succ_of_lt hwa.1)
  · rw [hrlen]
    exact ne_of_gt (Nat.lt_succ_of_lt hwb.1)

/-- Claim C6: for compatible well-formed fields `a` and `b`, each of
`a + b`, `a - b`, `-a` and `abs(a)` leaves both operands' stored values
unchanged and returns a newly constructed field (fresh storage, distinct
from both operands') of the same concrete variant, same count and same
default, whose values are the elementwise operation applied to the
operands' values. -/
theorem C6_arithmetic_no_mutation_fresh_result (s : Store) (a b : Field)
    (hwa : WF s a) (hwb : WF s b) (hc : fieldsCompatible a b = true) :
    FreshResult s a b (Field.add s a (.fld b))
      (List.zipWith Variable.add (s.read a.ref) (s.read b.ref)) ∧
    FreshResult s a b (Field.sub s a (.fld b))
      (List.zipWith Variable.sub (s.read a.ref) (s.read b.ref)) ∧
    FreshResult s a b (Field.negF s a) ((s.read a.ref).map Variable.neg) ∧
    FreshResult s a b (Field.absF s a) ((s.read a.ref).map Variable.abs) := by
  refine ⟨?_, ?_, ?_, ?_⟩
  · have h : Field.add s a (.fld b) = Field.newFrom s a
        (List.zipWith Variable.add (s.read a.ref) (s.read b.ref)) := by
      show (if fieldsCompatible a b = true then _ else _) = _
      rw [if_pos hc]
    rw [h]
    exact newFrom_frame s a b _ hwa hwb
  · have h : Field.sub s a (.fld b) = Field.newFrom s a
        (List.zipWith Variable.sub (s.read a.ref) (s.read b.ref)) := by
      show (if fieldsCompatible a b = true then _ else _) = _
      rw [if_pos hc]
    rw [h]
    exact newFrom_frame s a b _ hwa hwb
  · exact newFrom_frame s a b _ hwa hwb
  · exact newFrom_frame s a b _ hwa hwb

/-- Claim C6, witness: two compatible 2-element cell fields; all four
operations produce fresh non-mutating results. -/
theorem C6_arithmetic_witness :
    FreshResult ⟨[[.scalar 1, .scalar 2], [.scalar 10, .scalar 20]]⟩
      ⟨.cell, 2, .scalar 0, 0⟩ ⟨.cell, 2, .scalar 0, 1⟩
      (Field.add ⟨[[.scalar 1, .scalar 2], [.scalar 10, .scalar 20]]⟩
        ⟨.cell, 2, .scalar 0, 0⟩ (.fld ⟨.cell, 2, .scalar 0, 1⟩))
      (List.zipWith Variable.add
        ((Store.mk [[.scalar 1, .scalar 2], [.scalar 10, .scalar 20]]).read 0)
        ((Store.mk [[.scalar 1, .scalar 2], [.scalar 10, .scalar 20]]).read 1)) ∧
    FreshResult ⟨[[.scalar 1, .scalar 2], [.scalar 10, .scalar 20]]⟩
      ⟨.cell, 2, .scalar 0, 0⟩ ⟨.cell, 2, .scalar 0, 1⟩
      (Field.sub ⟨[[.scalar 1, .scalar 2], [.scalar 10, .scalar 20]]⟩
        ⟨.cell, 2, .scalar 0, 0⟩ (.fld ⟨.cell, 2, .scalar 0, 1⟩))
      (List.zipWith Variable.sub
        ((Store.mk [[.scalar 1, .scalar 2], [.scalar 10, .scalar 20]]).read 0)
        ((Store.mk [[.scalar 1, .scalar 2], [.scalar 10, .scalar 20]]).read 1)) ∧
    FreshResult ⟨[[.scalar 1, .scalar 2], [.scalar 10, .scalar 20]]⟩
      ⟨.cell, 2, .scalar 0, 0⟩ ⟨.cell, 2, .scalar 0, 1⟩
      (Field.negF ⟨[[.scalar 1, .scalar 2], [.scalar 10, .scalar 20]]⟩
        ⟨.cell, 2, .scalar 0, 0⟩)
      (((Store.mk [[.scalar 1, .scalar 2], [.scalar 10, .scalar 20]]).read 0).map
        Variable.neg) ∧
    FreshResult ⟨[[.scalar 1, .scalar 2], [.scalar 10, .scalar 20]]⟩
      ⟨.cell, 2, .scalar 0, 0⟩ ⟨.cell, 2, .scalar 0, 1⟩
      (Field.absF ⟨[[.scalar 1, .scalar 2], [.scalar 10, .scalar 20]]⟩
        ⟨.cell, 2, .scalar 0, 0⟩)
      (((Store.mk [[.scalar 1, .scalar 2], [.scalar 10, .scalar 20]]).read 0).map
        Variable.abs) :=
  C6_arithmetic_no_mutation_fresh_result
    ⟨[[.scalar 1, .scalar 2], [.scalar 10, .scalar 20]]⟩
    ⟨.cell, 2, .scalar 0, 0⟩ ⟨.cell, 2, .scalar 0, 1⟩
    (by decide) (by decide) (by decide)

theorem homog_write_of {s : Store} {f : Field} {arr : List Variable}
    (hH : Homog s f) (harr : ∀ w ∈ arr, w.type = f.default.type) :
    Homog (s.write f.ref arr) f := by
  intro w hw
  rcases read_write_self_cases s f.ref arr with h | h
  · rw [h] at hw
    exact harr w hw
  · rw [h] at hw
    exact hH w hw

theorem set_homog {s : Store} {f : Field} {i : Int} {v : Variable} {s' : Store}
    (hH : Homog s f) (hok : Field.set s f i v = .ok s') : Homog s' f := by
  unfold Field.set at hok
  split at hok
  · exact Except.noConfusion hok
  · next hty =>
      have hv : v.type = f.default.type := not_ne_iff.mp hty
      split at hok
      · exact Except.noConfusion hok
      · next arr harr =>
          have hs' : s' = s.write f.ref arr := (Except.ok.inj hok).symm
          subst hs'
          refine homog_write_of hH ?_
          unfold npSet at harr
          split at harr
          · intro w hw
            rcases List.mem_or_eq_of_mem_set ((Except.ok.inj harr) ▸ hw) with h1 | h1
            · exact hH w h1
            · exact h1 ▸ hv
          · split at harr
            · intro w hw
              rcases List.mem_or_eq_of_mem_set ((Except.ok.inj harr) ▸ hw) with h1 | h1
              · exact hH w h1
              · exact h1 ▸ hv
            · exact Except.noConfusion harr

theorem forEach_homog {s : Store} {f : Field} {func : PyFunc} {s' : Store}
    (hH : Homog s f) (hok : Field.for_each s f func = .ok s') : Homog s' f := by
  unfold Field.for_each at hok
  cases func with
  | none => exact Except.noConfusion hok
  | some t =>
      have hs' : s' = s.write f.ref
          (atLoop f.type t (s.read f.ref) ((List.range f.num_vars.toNat).map Int.ofNat)) :=
        (Except.ok.inj hok).symm
      subst hs'
      exact homog_write_of hH (atLoop_homog (s.read f.ref) hH)

theorem at_homog {s : Store} {f : Field} {idxs : List Int} {func : PyFunc}
    {s' : Store} {u : Unit}
    (hH : Homog s f) (hok : Field.atIdxs s f idxs func = (s', .ok u)) :
    Homog s' f := by
  cases func with
  | none =>
      simp only [Field.atIdxs] at hok
      exact absurd (congrArg Prod.snd hok) (by simp)
  | some t =>
      simp only [Field.atIdxs] at hok
      split at hok
      · split at hok
        · exact absurd (congrArg Prod.snd hok) (by simp)
        · have hs' : s' = s.write f.ref (atLoop f.type t (s.read f.ref) idxs) :=
            (congrArg Prod.fst hok).symm
          subst hs'
          exact homog_write_of hH (atLoop_homog (s.read f.ref) hH)
      · exact absurd (congrArg Prod.snd hok) (by simp)

theorem assign_homog {s : Store} {f : Field} {o : Operand} {s' : Store} {f' : Field}
    (hsrc : ∀ g, o = .fld g → Homog s g)
    (hok : Field.assign s f o = .ok (s', f')) : Homog s' f' := by
  cases o with
  | fld g =>
      simp only [Field.assign] at hok
      split at hok
      · next hcmp =>
          cases hok
          have hty : f.type = g.type := by
            simp only [fieldsCompatible, decide_eq_true_eq] at hcmp
            exact hcmp.2.1
          intro w hw
          exact (hsrc g rfl w hw).trans hty.symm
      · exact Except.noConfusion hok
  | var v =>
      simp only [Field.assign] at hok
      split at hok
      · exact Except.noConfusion hok
      · next hty =>
          have hv : v.type = f.type := not_ne_iff.mp hty
          cases hok
          intro w hw
          have hra := read_alloc_self s (List.replicate f.num_vars.toNat v)
          rw [hra] at hw
          exact (List.eq_of_mem_replicate hw) ▸ hv
  | other => exact Except.noConfusion hok

theorem stepOp_homog {s : Store} {f : Field} {op : FieldOp} {s' : Store} {f' : Field}
    (hH : Homog s f) (hsrc : ∀ g, op = .assignOp (.fld g) → Homog s g)
    (hok : stepOp s f op = .ok (s', f')) : Homog s' f' := by
  cases op with
  | setOp i v =>
      simp only [stepOp] at hok
      split at hok
      · exact Except.noConfusion hok
      · next s1 h1 =>
          cases hok
          exact set_homog hH h1
  | forEachOp func =>
      simp only [stepOp] at hok
      split at hok
      · exact Except.noConfusion hok
      · next s1 h1 =>
          cases hok
          exact forEach_homog hH h1
  | atOp idxs func =>
      simp only [stepOp] at hok
      split at hok
      · next s1 u h1 =>
          cases hok
          exact at_homog hH h1
      · exact Except.noConfusion hok
  | assignOp o =>
      exact assign_homog (fun g h => hsrc g (by rw [h])) hok

/-- Claim C8: kind homogeneity is an invariant — if every stored value of a
field has the kind of its default, then after any sequence of successful
`set` / `for_each` / `at` / `assign` calls (with kind-homogeneous sources
for field-to-field assigns) every stored value still has the default's
kind; moreover `set` and value-`assign` reject a mismatched kind with
`TypeError` (and `for_each`/`at` only ever write back kind-matching
results, by `stepAt`'s guard). -/
theorem C8_kind_homogeneity :
    (∀ (s : Store) (f : Field) (s' : Store) (f' : Field),
      Homog s f → Runs s f s' f' → Homog s' f') ∧
    (∀ (s : Store) (f : Field) (i : Int) (v : Variable),
      v.type ≠ f.default.type → Field.set s f i v = .error .typeError) ∧
    (∀ (s : Store) (f : Field) (v : Variable),
      v.type ≠ f.default.type →
      Field.assign s f (.var v) = .error .typeError) := by
  refine ⟨?_, ?_, ?_⟩
  · intro s f s' f' hH hrun
    induction hrun with
    | refl => exact hH
    | step hrun hsrc hok ih => exact stepOp_homog ih hsrc hok
  · intro s f i v h
    unfold Field.set
    rw [if_pos h]
  · intro s f v h
    show (if v.type ≠ f.type then Except.error PyErr.typeError else _)
        = Except.error PyErr.typeError
    exact if_pos h

/-- Claim C8, witness: a homogeneous 1-element scalar field stays
homogeneous after a successful `set`, and a vector value is rejected by
both `set` and `assign`. -/
theorem C8_kind_homogeneity_witness :
    Homog ⟨[[.scalar 5]]⟩ ⟨.cell, 1, .scalar 1, 0⟩ ∧
    Field.set ⟨[[.scalar 1]]⟩ ⟨.cell, 1, .scalar 1, 0⟩ 0 (.vector 1 2 3)
      = .error .typeError ∧
    Field.assign ⟨[[.scalar 1]]⟩ ⟨.cell, 1, .scalar 1, 0⟩ (.var (.vector 1 2 3))
      = .error .typeError :=
  ⟨C8_kind_homogeneity.1 ⟨[[.scalar 1]]⟩ ⟨.cell, 1, .scalar 1, 0⟩
      ⟨[[.scalar 5]]⟩ ⟨.cell, 1, .scalar 1, 0⟩ (by decide)
      (Runs.step (Runs.refl ⟨[[.scalar 1]]⟩ ⟨.cell, 1, .scalar 1, 0⟩)
        (fun g h => FieldOp.noConfusion h)
        (show stepOp ⟨[[.scalar 1]]⟩ ⟨.cell, 1, .scalar 1, 0⟩
            (.setOp 0 (.scalar 5))
          = .ok (⟨[[.scalar 5]]⟩, ⟨.cell, 1, .scalar 1, 0⟩) from rfl)),
   C8_kind_homogeneity.2.1 ⟨[[.scalar 1]]⟩ ⟨.cell, 1, .scalar 1, 0⟩ 0
     (.vector 1 2 3) (by decide),
   C8_kind_homogeneity.2.2 ⟨[[.scalar 1]]⟩ ⟨.cell, 1, .scalar 1, 0⟩
     (.vector 1 2 3) (by decide)⟩

end YunMeng
